import Mathlib

/-!
Verification of the conversation / payment core of the `giggle` repository:
the PIN guard (`pin.service.ts`), the intent classifier fallback
(`openai.service.ts`), the in-memory pending-transaction store
(`pending-transaction.service.ts`) and the WhatsApp webhook handlers
(`whatsapp.route.ts`).  JavaScript strings are modelled as `List Char`,
times as natural-number milliseconds, and amounts are interpreted through
an abstract numeric reading `num : Str → ℚ` standing for `parseFloat`.
External collaborators (wallet, durable store, messaging, LLM, PBKDF2) are
parameters of the model, exactly at the call boundaries the source uses.
-/

namespace Giggle

/-- JavaScript strings, modelled as lists of characters. -/
abbrev Str := List Char

/-- Model of `String.prototype.trim`: drop whitespace from both ends. -/
def trim (s : Str) : Str :=
  ((s.dropWhile Char.isWhitespace).reverse.dropWhile Char.isWhitespace).reverse

/-- Model of `String.prototype.toLowerCase` (ASCII inputs). -/
def lowerStr (s : Str) : Str := s.map Char.toLower

/-- Boolean prefix test used by the substring search. -/
def isPref : Str → Str → Bool
  | [], _ => true
  | _ :: _, [] => false
  | a :: as, b :: bs => a = b && isPref as bs

/-- Model of an unanchored regular-expression keyword test: does `needle`
occur as a contiguous substring of `hay`. -/
def containsSub (hay needle : Str) : Bool :=
  match hay with
  | [] => needle.isEmpty
  | _ :: rest => isPref needle hay || containsSub rest needle

/-! ## PIN Guard — `apps/api/src/services/pin.service.ts`

The PBKDF2 primitive (`crypto.pbkdf2Sync(...).toString('hex')`) and the
random salt (`randomBytes(16).toString('hex')`) are external collaborators:
the derivation function `kdf` and the drawn `salt` are parameters. -/

/-- Source `PinService.isValidPinFormat`: the regex `^\d{4,6}$`. -/
def isValidPinFormat (pin : Str) : Bool :=
  decide (4 ≤ pin.length) && decide (pin.length ≤ 6) && pin.all Char.isDigit

/-- Source `PinService.constantTimeCompare`: length check, then the fold
`result |= a.charCodeAt(i) ^ b.charCodeAt(i)` and a final `result === 0`. -/
def constantTimeCompare (a b : Str) : Bool :=
  if a.length ≠ b.length then false
  else
    decide (((List.zipWith (fun x y => Nat.xor x.toNat y.toNat) a b).foldl
      Nat.lor 0) = 0)

/-- Source `String.prototype.split(':')`, specialised to the one separator
the PIN service uses. -/
def splitOnColon : Str → List Str
  | [] => [[]]
  | c :: rest =>
    if c = ':' then [] :: splitOnColon rest
    else
      match splitOnColon rest with
      | [] => [[c]]
      | p :: ps => (c :: p) :: ps

/-- Source `PinService.hashPin`: validate the 4-6 digit format (the source
throws on failure, modelled as `none`), then return the encoded record
`salt:derivedKey`.  `kdf` models `pbkdf2Sync(pin, salt, ...).toString('hex')`
and `salt` is the freshly drawn random salt. -/
def hashPin (kdf : Str → Str → Str) (salt pin : Str) : Option Str :=
  if isValidPinFormat pin then some (salt ++ ':' :: kdf pin salt) else none

/-- Source `PinService.verifyPin`: reject malformed PINs, split the stored
record on `:`, reject a missing or empty salt or hash part (the source's
`!salt || !hash`, where `undefined` and the empty string are falsy), then
re-derive with the embedded salt and compare in constant time. -/
def verifyPin (kdf : Str → Str → Str) (pin storedHash : Str) : Bool :=
  if !isValidPinFormat pin then false
  else
    match splitOnColon storedHash with
    | salt :: hash :: _ =>
      if salt.isEmpty || hash.isEmpty then false
      else constantTimeCompare hash (kdf pin salt)
    | _ => false

/-- A well-formed PIN together with a single-digit mutation of it: same
length and exactly one differing position. -/
def isSingleDigitMutation (p q : Str) : Bool :=
  decide (p.length = q.length) &&
    decide ((List.zipWith (fun a b => decide (a ≠ b)) p q).count true = 1)

/-! ## Intent Classifier — `apps/api/src/services/openai.service.ts`

The closed tagged union of intents (the zod discriminated union), the
deterministic fallback parser, and `parseIntent` with the LLM collaborator
modelled as a parameter.  The small regex patterns of the fallback parser
are implemented directly with JavaScript backtracking semantics: ordered
alternatives, greedy quantifiers, leftmost match. -/

/-- The closed intent union (`IntentSchema`). -/
inductive Intent where
  | send (amount recipient currency : Str)
  | request (amount fromPhone currency : Str)
  | balance
  | account
  | history (limit : Nat)
  | help
  | confirm
  | cancel
  | setPin (pin : Str)
  | createCoupon (amount token : Str) (message : Option Str) (expiryDays : Nat)
  | redeemCoupon (code : Str)
  | checkCoupon (code : Option Str)
  | listCoupons
  | unknown (originalMessage : Str)
deriving DecidableEq, Repr

/-- The fixed confirm-word set of the regex `^(yes|confirm|proceed|ok|yeah|yep|sure|accept)$`. -/
def confirmWords : List Str :=
  [['y','e','s'], ['c','o','n','f','i','r','m'], ['p','r','o','c','e','e','d'],
   ['o','k'], ['y','e','a','h'], ['y','e','p'], ['s','u','r','e'],
   ['a','c','c','e','p','t']]

/-- The fixed cancel-word set of the regex `^(no|cancel|stop|abort|decline|reject)$`. -/
def cancelWords : List Str :=
  [['n','o'], ['c','a','n','c','e','l'], ['s','t','o','p'],
   ['a','b','o','r','t'], ['d','e','c','l','i','n','e'],
   ['r','e','j','e','c','t']]

/-- Anchored, case-insensitive confirm-word test on the lowered message. -/
def isConfirmWord (s : Str) : Bool := confirmWords.contains s

/-- Anchored, case-insensitive cancel-word test on the lowered message. -/
def isCancelWord (s : Str) : Bool := cancelWords.contains s

/-- Attempted match of `\d+(?:\.\d{1,2})?` anchored at the head of `s`,
returning the matched text: a maximal digit run, optionally followed by a
dot and up to two more digits (the greedy optional group). -/
def matchAmountAt (s : Str) : Option Str :=
  let ds := s.takeWhile Char.isDigit
  if ds.isEmpty then none
  else
    match s.drop ds.length with
    | '.' :: r =>
      let fs := (r.takeWhile Char.isDigit).take 2
      if fs.isEmpty then some ds else some (ds ++ '.' :: fs)
    | _ => some ds

/-- Leftmost match of `/\$?(\d+(?:\.\d{1,2})?)/`, returning capture group 1
(the numeric text without the optional dollar sign), as used by
`amountMatch[1]` in the source. -/
def amountSearch : Str → Option Str
  | [] => none
  | c :: rest =>
    if c = '$' then
      match matchAmountAt rest with
      | some d => some d
      | none => amountSearch rest
    else
      match matchAmountAt (c :: rest) with
      | some d => some d
      | none => amountSearch rest

/-- One-character regex step: a literal character. -/
def stepChar (c : Char) : Str → List Str
  | x :: r => if x = c then [r] else []
  | [] => []

/-- One-character regex step: the class `\d`. -/
def stepDigit : Str → List Str
  | x :: r => if x.isDigit then [r] else []
  | [] => []

/-- One-character regex step: the separator class `[-.\s]`. -/
def stepSep : Str → List Str
  | x :: r => if x = '-' ∨ x = '.' ∨ x.isWhitespace then [r] else []
  | [] => []

/-- Sequencing of regex steps: depth-first over the ordered alternatives,
which is exactly the JavaScript backtracking order. -/
def seqSteps : List (Str → List Str) → Str → List Str
  | [], s => [s]
  | f :: fs, s => (f s).flatMap (seqSteps fs)

/-- A greedy optional step (`x?`): first the alternatives that consume,
then the empty alternative. -/
def stepOpt (f : Str → List Str) (s : Str) : List Str := f s ++ [s]

/-- An exact repetition `\d{n}`. -/
def stepDigits (n : Nat) : Str → List Str :=
  seqSteps (List.replicate n stepDigit)

/-- The greedy range `\d{1,3}`: three digits first, then two, then one. -/
def stepDigitRange13 (s : Str) : List Str :=
  stepDigits 3 s ++ stepDigits 2 s ++ stepDigits 1 s

/-- The phone-number pattern
`(?:\+?\d{1,3}[-.\s]?)?\(?\d{3}\)?[-.\s]?\d{3}[-.\s]?\d{4}` as an ordered
list of backtracking steps. -/
def phoneSteps : Str → List Str :=
  seqSteps
    [stepOpt (seqSteps [stepOpt (stepChar '+'), stepDigitRange13, stepOpt stepSep]),
     stepOpt (stepChar '('), stepDigits 3, stepOpt (stepChar ')'),
     stepOpt stepSep, stepDigits 3, stepOpt stepSep, stepDigits 4]

/-- Attempted phone match anchored at `s`: the first surviving alternative
gives the number of consumed characters. -/
def phoneMatchAt (s : Str) : Option Nat :=
  match phoneSteps s with
  | [] => none
  | r :: _ => some (s.length - r.length)

/-- Leftmost match of the phone pattern, returning the full matched text
(`phoneMatch[0]` in the source). -/
def phoneSearch : Str → Option Str
  | [] => none
  | s@(_ :: rest) =>
    match phoneMatchAt s with
    | some n => some (s.take n)
    | none => phoneSearch rest

/-- Source `OpenAIService.fallbackParse`: the deterministic rule-based
matcher used when the LLM collaborator is unavailable or fails. -/
def fallbackParse (message : Str) : Intent :=
  let lowerAll := lowerStr message
  let lowerMessage := trim lowerAll
  if isConfirmWord lowerMessage then .confirm
  else if isCancelWord lowerMessage then .cancel
  else if containsSub lowerMessage ['b','a','l','a','n','c','e'] ||
          containsSub lowerMessage ['h','o','w',' ','m','u','c','h'] then .balance
  else if containsSub lowerMessage ['a','c','c','o','u','n','t'] ||
          containsSub lowerMessage ['a','d','d','r','e','s','s'] ||
          containsSub lowerMessage ['w','a','l','l','e','t'] ||
          containsSub lowerMessage ['m','y',' ','a','d','d','r','e','s','s'] then .account
  else if containsSub lowerMessage ['h','i','s','t','o','r','y'] ||
          containsSub lowerMessage ['t','r','a','n','s','a','c','t','i','o','n','s'] ||
          containsSub lowerMessage ['p','a','s','t'] ||
          containsSub lowerMessage ['p','r','e','v','i','o','u','s'] then .history 5
  else if containsSub lowerMessage ['h','e','l','p'] ||
          containsSub lowerMessage ['w','h','a','t',' ','c','a','n'] ||
          containsSub lowerMessage ['h','o','w',' ','d','o'] ||
          containsSub lowerMessage ['c','o','m','m','a','n','d','s'] then .help
  else
    let requestResult : Intent :=
      if containsSub lowerAll ['r','e','q','u','e','s','t'] ||
         containsSub lowerAll ['a','s','k'] ||
         containsSub lowerAll ['g','e','t'] then
        match amountSearch message, phoneSearch message with
        | some a, some p => .request a p ['P','Y','U','S','D']
        | _, _ => .unknown message
      else .unknown message
    if containsSub lowerAll ['s','e','n','d'] ||
       containsSub lowerAll ['p','a','y'] ||
       containsSub lowerAll ['t','r','a','n','s','f','e','r'] then
      match amountSearch message, phoneSearch message with
      | some a, some p => .send a p ['P','Y','U','S','D']
      | _, _ => requestResult
    else requestResult

/-- Outcome of the LLM collaborator call for one message: a thrown error
(timeout, network, auth, missing choice, malformed JSON), a JSON reply that
fails the zod schema validation, or a schema-validated intent. -/
inductive LLMOutcome where
  | failure
  | invalidIntent
  | ok (i : Intent)
deriving DecidableEq, Repr

/-- Result of `parseIntent`, instrumented with whether the LLM collaborator
was consulted. -/
structure ParseResult where
  intent : Intent
  calledLLM : Bool
deriving DecidableEq, Repr

/-- Source `OpenAIService.parseIntent`: quick anchored confirm/cancel match
first (bypassing the LLM), then the LLM collaborator guarded by schema
validation with fallback, or the fallback parser when no client is
configured. -/
def parseIntent (clientConfigured : Bool) (llm : Str → LLMOutcome)
    (message : Str) : ParseResult :=
  let lowerMessage := trim (lowerStr message)
  if isConfirmWord lowerMessage then ⟨.confirm, false⟩
  else if isCancelWord lowerMessage then ⟨.cancel, false⟩
  else if !clientConfigured then ⟨fallbackParse message, false⟩
  else
    match llm message with
    | .ok i => ⟨i, true⟩
    | .failure => ⟨fallbackParse message, true⟩
    | .invalidIntent => ⟨fallbackParse message, true⟩

/-! ## Pending Action Store — `services/pending-transaction.service.ts`

The two JavaScript `Map`s are modelled as association lists with unique
keys (`mapInsert` removes the key first, like `Map.set`), `randomUUID` is
modelled as a fresh-id counter, and `new Date()` as a millisecond timestamp
passed to each operation. -/

/-- Finite-map lookup on an association list (JavaScript `Map.get`). -/
def mapFind {K V : Type} [DecidableEq K] : List (K × V) → K → Option V
  | [], _ => none
  | (k, v) :: rest, key => if k = key then some v else mapFind rest key

/-- Finite-map removal (JavaScript `Map.delete`). -/
def mapErase {K V : Type} [DecidableEq K] : List (K × V) → K → List (K × V)
  | [], _ => []
  | p :: rest, key =>
    if p.1 = key then mapErase rest key else p :: mapErase rest key

/-- Finite-map insertion (JavaScript `Map.set`): one binding per key. -/
def mapInsert {K V : Type} [DecidableEq K] (m : List (K × V)) (key : K)
    (v : V) : List (K × V) :=
  (key, v) :: mapErase m key

/-- The direction of a staged action (`'send' | 'request'`). -/
inductive TxKind where
  | send
  | request
deriving DecidableEq, Repr

/-- Source interface `PendingTransaction`: an in-memory record of a
financial action awaiting confirmation.  Ids are naturals (modelling the
generated UUIDs), times are millisecond timestamps, the currency is
always the `PYUSD` literal. -/
structure PendingTransaction where
  id : Nat
  userId : Str
  phoneNumber : Str
  kind : TxKind
  amount : Str
  recipient : Str
  recipientPhone : Str
  currency : Str
  pin : Option Str
  createdAt : Nat
  expiresAt : Nat
deriving DecidableEq, Repr

/-- The private state of `PendingTransactionService`: `pendingTransactions`
keyed by transaction id, `userPendingTx` keyed by user id, plus the
fresh-id counter standing in for `randomUUID`. -/
structure StoreState where
  pendingTransactions : List (Nat × PendingTransaction)
  userPendingTx : List (Str × Nat)
  nextId : Nat
deriving DecidableEq, Repr

/-- The state of the service at process start: two empty maps. -/
def emptyStore : StoreState := ⟨[], [], 0⟩

/-- Parameters of `createPendingTransaction`. -/
structure CreateParams where
  userId : Str
  phoneNumber : Str
  kind : TxKind
  amount : Str
  recipient : Str
  recipientPhone : Str
deriving DecidableEq, Repr

/-- Source `cancelPendingTransaction`: look up the user's transaction id;
if none, return `false`; otherwise delete both map entries and return
`true`. -/
def cancelPendingTransaction (st : StoreState) (userId : Str) :
    Bool × StoreState :=
  match mapFind st.userPendingTx userId with
  | none => (false, st)
  | some txId =>
    (true,
     { st with
        pendingTransactions := mapErase st.pendingTransactions txId,
        userPendingTx := mapErase st.userPendingTx userId })

/-- The fixed confirmation window: `5 * 60 * 1000` milliseconds. -/
def expiryWindowMs : Nat := 5 * 60 * 1000

/-- Source `createPendingTransaction`: cancel any existing pending
transaction for the user first, draw a fresh id, stamp creation and
expiry times, and register the record in both maps. -/
def createPendingTransaction (st : StoreState) (now : Nat)
    (params : CreateParams) : PendingTransaction × StoreState :=
  let st1 := (cancelPendingTransaction st params.userId).2
  let txId := st1.nextId
  let pendingTx : PendingTransaction :=
    { id := txId
      userId := params.userId
      phoneNumber := params.phoneNumber
      kind := params.kind
      amount := params.amount
      recipient := params.recipient
      recipientPhone := params.recipientPhone
      currency := ['P','Y','U','S','D']
      pin := none
      createdAt := now
      expiresAt := now + expiryWindowMs }
  (pendingTx,
   { pendingTransactions := mapInsert st1.pendingTransactions txId pendingTx
     userPendingTx := mapInsert st1.userPendingTx params.userId txId
     nextId := st1.nextId + 1 })

/-- Source `getPendingTransaction`: follow `userPendingTx` then
`pendingTransactions`; on `new Date() > tx.expiresAt` perform the same
cleanup as cancel and return `null`. -/
def getPendingTransaction (st : StoreState) (now : Nat) (userId : Str) :
    Option PendingTransaction × StoreState :=
  match mapFind st.userPendingTx userId with
  | none => (none, st)
  | some txId =>
    match mapFind st.pendingTransactions txId with
    | none => (none, st)
    | some tx =>
      if now > tx.expiresAt then (none, (cancelPendingTransaction st userId).2)
      else (some tx, st)

/-- Source `if (pin) tx.pin = pin`: attach a supplied PIN to the returned
transaction (the empty string is falsy in JavaScript). -/
def attachPin (pin : Option Str) (tx : PendingTransaction) :
    PendingTransaction :=
  match pin with
  | some p => if p.isEmpty then tx else { tx with pin := some p }
  | none => tx

/-- Source `confirmPendingTransaction`: `get`, attach the optional PIN,
then delete both map entries in the same synchronous step. -/
def confirmPendingTransaction (st : StoreState) (now : Nat) (userId : Str)
    (pin : Option Str) : Option PendingTransaction × StoreState :=
  match getPendingTransaction st now userId with
  | (none, st1) => (none, st1)
  | (some tx, st1) =>
    (some (attachPin pin tx),
     { st1 with
        pendingTransactions := mapErase st1.pendingTransactions tx.id,
        userPendingTx := mapErase st1.userPendingTx userId })

/-- Source `hasPendingTransaction`:
`getPendingTransaction(userId) !== null`, with the same lazy cleanup. -/
def hasPendingTransaction (st : StoreState) (now : Nat) (userId : Str) :
    Bool × StoreState :=
  let r := getPendingTransaction st now userId
  (r.1.isSome, r.2)

/-- One observable operation on the store, with its wall-clock instant:
the public interface of `PendingTransactionService` (the `setTimeout`
sweep is the same cleanup `cancelPendingTransaction` performs). -/
inductive StoreOp where
  | create (now : Nat) (params : CreateParams)
  | get (now : Nat) (userId : Str)
  | confirm (now : Nat) (userId : Str) (pin : Option Str)
  | cancel (userId : Str)
deriving DecidableEq, Repr

/-- State transition of one store operation. -/
def stepStore (st : StoreState) : StoreOp → StoreState
  | .create now params => (createPendingTransaction st now params).2
  | .get now userId => (getPendingTransaction st now userId).2
  | .confirm now userId pin => (confirmPendingTransaction st now userId pin).2
  | .cancel userId => (cancelPendingTransaction st userId).2

/-- State reached from process start by a sequence of store operations. -/
def runStore (ops : List StoreOp) : StoreState :=
  ops.foldl stepStore emptyStore

/-- Structural invariant of the two maps: transaction keys are distinct,
every registered transaction carries its own key as id, and the owning
user's `userPendingTx` entry points back at it. -/
def InvStore (st : StoreState) : Prop :=
  (st.pendingTransactions.map Prod.fst).Nodup ∧
  ∀ p ∈ st.pendingTransactions,
    p.2.id = p.1 ∧ mapFind st.userPendingTx p.2.userId = some p.1

/-! ## Action Executor and Conversation Router — `routes/whatsapp.route.ts`

The external collaborators (wallet service, user service, messaging,
PBKDF2, the configured LLM client and JavaScript `parseFloat`) are the
fields of `Env`.  Outbound messages, PIN verification attempts and wallet
transfer invocations are recorded as an ordered event trace; the durable
transaction table is an explicit `DataBase` value threaded through the
executor. -/

/-- Message templates of `messaging.service.ts` that the modelled handlers
emit, identified by template (the replies relevant to the claims carry
their dynamic fields). -/
inductive Reply where
  | invalidPhone
  | pinSetupRequired
  | insufficientBalance (balance amount : Str)
  | confirmationRequest (amount recipientPhone : Str) (requirePin : Bool)
  | noPendingConfirm
  | cancelled
  | noPendingCancel
  | recipientNotFound
  | insufficientGas
  | sending
  | txSuccess (txHash : Str)
  | txFailed
  | noPinSet
  | authFailure
  | requestRecorded (amount : Str)
  | didNotUnderstand
  | generic
deriving DecidableEq, Repr

/-- Observable effects of one inbound turn, in program order. -/
inductive Event where
  | replied (r : Reply)
  | sentWhatsApp (phone : Str) (r : Reply)
  | pinVerified (ok : Bool)
  | transferInvoked (fromAddr toAddr amount : Str)
deriving DecidableEq, Repr

/-- Direction of a durable `Transaction` row (`TransactionType`). -/
inductive RowKind where
  | send
  | receive
  | request
deriving DecidableEq, Repr

/-- Status of a durable `Transaction` row (`TransactionStatus`). -/
inductive RowStatus where
  | pending
  | confirmed
  | failed
deriving DecidableEq, Repr

/-- A durable `Transaction` row as created by `transaction.service.ts`. -/
structure TxRow where
  id : Nat
  userId : Str
  txHash : Option Str
  kind : RowKind
  token : Str
  amount : Str
  recipient : Option Str
  sender : Option Str
  status : RowStatus
deriving DecidableEq, Repr

/-- The durable transaction table, with a fresh-id counter standing in for
`randomUUID`. -/
structure DataBase where
  rows : List TxRow
  nextRowId : Nat
deriving DecidableEq, Repr

/-- Source `TransactionService.createTransaction`: insert a new row with a
fresh id, no hash yet, and status `pending`. -/
def createTransaction (db : DataBase) (userId : Str) (kind : RowKind)
    (token amount : Str) (recipient sender : Option Str) : TxRow × DataBase :=
  let row : TxRow :=
    { id := db.nextRowId
      userId := userId
      txHash := none
      kind := kind
      token := token
      amount := amount
      recipient := recipient
      sender := sender
      status := .pending }
  (row, { rows := db.rows ++ [row], nextRowId := db.nextRowId + 1 })

/-- Source `TransactionService.updateTransactionHash`. -/
def updateTransactionHash (db : DataBase) (id : Nat) (txHash : Str) :
    DataBase :=
  { db with
      rows := db.rows.map fun r =>
        if r.id = id then { r with txHash := some txHash } else r }

/-- Source `TransactionService.updateTransactionStatus`. -/
def updateTransactionStatus (db : DataBase) (id : Nat) (status : RowStatus) :
    DataBase :=
  { db with
      rows := db.rows.map fun r =>
        if r.id = id then { r with status := status } else r }

/-- The external collaborators consumed by the webhook handlers.  Reads
are pure functions: the handlers under verification never write through
these interfaces except to the transaction table, which is explicit. -/
structure Env where
  llmConfigured : Bool
  llm : Str → LLMOutcome
  kdf : Str → Str → Str
  pinHashOf : Str → Option Str
  userPhone : Str → Option Str
  userIdOf : Str → Str
  walletAddr : Str → Str
  pyusdBalance : Str → Str
  num : Str → Rat
  hasGas : Str → Bool
  transfer : Str → Str → Str → Option Str
  normalizePhone : Str → Option Str

/-- Source `executeSendTransaction`: resolve wallets, check gas, invoke
the transfer, and on success persist and confirm the two transaction rows
(sender `send`, recipient `receive`) before notifying both parties.  The
trace records the `twiml` replies, the transfer invocation, and the
best-effort recipient notification; a collaborator failure inside the
`try` yields the generic failure reply with the table unchanged. -/
def executeSendTransaction (env : Env) (userId _phoneNumber : Str)
    (pendingTx : PendingTransaction) (db : DataBase) :
    List Event × DataBase :=
  let walletAddress := env.walletAddr userId
  match env.userPhone pendingTx.recipient with
  | none => ([.replied .recipientNotFound], db)
  | some _ =>
    let recipientAddress := env.walletAddr pendingTx.recipient
    if !env.hasGas walletAddress then ([.replied .insufficientGas], db)
    else
      match env.transfer walletAddress recipientAddress pendingTx.amount with
      | none =>
        ([.replied .sending,
          .transferInvoked walletAddress recipientAddress pendingTx.amount,
          .replied .txFailed], db)
      | some txHash =>
        let r1 := createTransaction db userId .send ['P','Y','U','S','D']
          pendingTx.amount (some recipientAddress) (some walletAddress)
        let db2 := updateTransactionHash r1.2 r1.1.id txHash
        let db3 := updateTransactionStatus db2 r1.1.id .confirmed
        let r2 := createTransaction db3 pendingTx.recipient .receive
          ['P','Y','U','S','D'] pendingTx.amount (some recipientAddress)
          (some walletAddress)
        let db5 := updateTransactionHash r2.2 r2.1.id txHash
        let db6 := updateTransactionStatus db5 r2.1.id .confirmed
        ([.replied .sending,
          .transferInvoked walletAddress recipientAddress pendingTx.amount,
          .replied (.txSuccess txHash),
          .sentWhatsApp pendingTx.recipientPhone (.txSuccess txHash)], db6)

/-- Source `executePaymentRequest`: best-effort notification of the
counterparty, then an unconditional success reply. -/
def executePaymentRequest (_phoneNumber : Str)
    (pendingTx : PendingTransaction) : List Event :=
  [.sentWhatsApp pendingTx.recipientPhone (.requestRecorded pendingTx.amount),
   .replied (.requestRecorded pendingTx.amount)]

/-- Source `handleSend`: normalise the recipient phone, require a stored
PIN hash, resolve the recipient user and the sender wallet, compare
`parseFloat(balance) < parseFloat(intent.amount)`, then stage the pending
transaction and request confirmation. -/
def handleSend (env : Env) (st : StoreState) (now : Nat)
    (userId phoneNumber amount recipient : Str) :
    List Event × StoreState :=
  match env.normalizePhone recipient with
  | none => ([.replied .invalidPhone], st)
  | some recipientPhone =>
    if (env.pinHashOf userId).isNone then ([.replied .pinSetupRequired], st)
    else
      let recipientUser := env.userIdOf recipientPhone
      let address := env.walletAddr userId
      let balance := env.pyusdBalance address
      if env.num balance < env.num amount then
        ([.replied (.insufficientBalance balance amount)], st)
      else
        let st2 := (createPendingTransaction st now
          { userId := userId, phoneNumber := phoneNumber, kind := .send,
            amount := amount, recipient := recipientUser,
            recipientPhone := recipientPhone }).2
        ([.replied (.confirmationRequest amount recipientPhone
            (env.pinHashOf userId).isSome)], st2)

/-- Source `handleRequest`: normalise the counterparty phone, stage the
pending request (no PIN requirement), request confirmation. -/
def handleRequest (env : Env) (st : StoreState) (now : Nat)
    (userId phoneNumber amount fromPhone : Str) :
    List Event × StoreState :=
  match env.normalizePhone fromPhone with
  | none => ([.replied .invalidPhone], st)
  | some fp =>
    let fromUser := env.userIdOf fp
    let st2 := (createPendingTransaction st now
      { userId := userId, phoneNumber := phoneNumber, kind := .request,
        amount := amount, recipient := fromUser, recipientPhone := fp }).2
    ([.replied (.confirmationRequest amount fp false)], st2)

/-- Source `handleConfirm`: pop the pending transaction from the store
with `confirmPendingTransaction(userId)` — no PIN argument and no PIN
verification — and execute it. -/
def handleConfirm (env : Env) (st : StoreState) (db : DataBase) (now : Nat)
    (userId phoneNumber : Str) : List Event × StoreState × DataBase :=
  match confirmPendingTransaction st now userId none with
  | (none, st1) => ([.replied .noPendingConfirm], st1, db)
  | (some pendingTx, st1) =>
    match pendingTx.kind with
    | .send =>
      let r := executeSendTransaction env userId phoneNumber pendingTx db
      (r.1, st1, r.2)
    | .request => (executePaymentRequest phoneNumber pendingTx, st1, db)

/-- Source `handleCancel`. -/
def handleCancel (st : StoreState) (userId : Str) :
    List Event × StoreState :=
  let r := cancelPendingTransaction st userId
  if r.1 then ([.replied .cancelled], r.2)
  else ([.replied .noPendingCancel], r.2)

/-- Source `handleConfirmWithPin`: require a stored PIN hash, verify the
supplied PIN; on failure reply with the authentication failure and cancel
the pending transaction; on success pop the pending transaction (with the
PIN attached) and execute it. -/
def handleConfirmWithPin (env : Env) (st : StoreState) (db : DataBase)
    (now : Nat) (userId phoneNumber pin : Str) :
    List Event × StoreState × DataBase :=
  match env.pinHashOf userId with
  | none => ([.replied .noPinSet], st, db)
  | some pinHash =>
    if !verifyPin env.kdf pin pinHash then
      ([.pinVerified false, .replied .authFailure],
       (cancelPendingTransaction st userId).2, db)
    else
      match confirmPendingTransaction st now userId (some pin) with
      | (none, st1) => ([.pinVerified true, .replied .noPendingConfirm], st1, db)
      | (some pendingTx, st1) =>
        match pendingTx.kind with
        | .send =>
          let r := executeSendTransaction env userId phoneNumber pendingTx db
          (.pinVerified true :: r.1, st1, r.2)
        | .request =>
          (.pinVerified true :: executePaymentRequest phoneNumber pendingTx,
           st1, db)

/-- Source: the post-onboarding dispatch of the WhatsApp webhook, from
intent classification to the per-intent handlers.  The read-only intents
(balance, account, history, help, setPin and the coupon flows) neither
touch the pending store nor call `sendPYUSD`; they are recorded as a
generic reply.  The `unknown` branch implements the PIN heuristic:
a live pending transaction plus a bare 4-6 digit body routes to
`handleConfirmWithPin`. -/
def handleInbound (env : Env) (st : StoreState) (db : DataBase) (now : Nat)
    (userId phoneNumber body : Str) : List Event × StoreState × DataBase :=
  match (parseIntent env.llmConfigured env.llm body).intent with
  | .send amount recipient _ =>
    let r := handleSend env st now userId phoneNumber amount recipient
    (r.1, r.2, db)
  | .request amount fromPhone _ =>
    let r := handleRequest env st now userId phoneNumber amount fromPhone
    (r.1, r.2, db)
  | .confirm => handleConfirm env st db now userId phoneNumber
  | .cancel =>
    let r := handleCancel st userId
    (r.1, r.2, db)
  | .unknown _ =>
    let hp := hasPendingTransaction st now userId
    if hp.1 && isValidPinFormat (trim body) then
      handleConfirmWithPin env hp.2 db now userId phoneNumber (trim body)
    else ([.replied .didNotUnderstand], hp.2, db)
  | _ => ([.replied .generic], st, db)

/-! ## Concrete fixtures used by the claim witnesses -/

/-- A demonstration key-derivation function standing in for PBKDF2 in the
concrete witnesses (injective in the PIN for a fixed salt). -/
def demoKdf : Str → Str → Str := fun p s => p ++ s

/-- A demonstration stored PIN record for the PIN `1234` with salt `ab`,
as produced by `hashPin demoKdf`. -/
def demoPinHash : Str := ['a','b',':','1','2','3','4','a','b']

/-- A demonstration collaborator environment: PIN `1234` is set for every
user, balance `5` (below the staged amount `10`), gas available, transfers
succeed with hash `hx`. -/
def lowBalanceEnv : Env :=
  { llmConfigured := false
    llm := fun _ => .failure
    kdf := demoKdf
    pinHashOf := fun _ => some demoPinHash
    userPhone := fun _ => some ['+','1']
    userIdOf := fun p => p
    walletAddr := fun u => 'W' :: u
    pyusdBalance := fun _ => ['5']
    num := fun s => if s = ['5'] then 5 else if s = ['1','0'] then 10 else 0
    hasGas := fun _ => true
    transfer := fun _ _ _ => some ['h','x']
    normalizePhone := fun p => some p }

/-- The same environment with a balance of `50`, covering the staged
amount. -/
def demoEnv : Env :=
  { lowBalanceEnv with
      pyusdBalance := fun _ => ['5','0']
      num := fun s => if s = ['5','0'] then 50
                      else if s = ['1','0'] then 10 else 0 }

/-- The same environment with no gas available. -/
def noGasEnv : Env := { lowBalanceEnv with hasGas := fun _ => false }

/-- Parameters of a staged demonstration send of `10` from user `u`. -/
def demoParams : CreateParams :=
  { userId := ['u'], phoneNumber := ['p'], kind := .send,
    amount := ['1','0'], recipient := ['r'], recipientPhone := ['q'] }

/-- A store holding one send staged at time `0` for user `u` (it expires
at `300000`). -/
def stagedSendStore : StoreState :=
  (createPendingTransaction emptyStore 0 demoParams).2

/-- A staged demonstration send, as a pending transaction value. -/
def demoPendingTx : PendingTransaction :=
  (createPendingTransaction emptyStore 0 demoParams).1

/-- The durable transaction table at process start. -/
def emptyDb : DataBase := ⟨[], 0⟩

/-! ## Supporting lemmas -/

theorem char_toNat_injective {a b : Char} (h : a.toNat = b.toNat) : a = b := by
  have := congrArg Char.ofNat h
  rwa [Char.ofNat_toNat, Char.ofNat_toNat] at this

theorem nat_lor_eq_zero {x y : Nat} (h : x ||| y = 0) : x = 0 ∧ y = 0 := by
  refine ⟨Nat.zero_of_testBit_eq_false fun i => ?_,
          Nat.zero_of_testBit_eq_false fun i => ?_⟩ <;>
  · have hb := congrArg (fun n => Nat.testBit n i) h
    simp only [Nat.testBit_lor, Nat.zero_testBit] at hb
    first
      | exact (Bool.or_eq_false_iff.mp hb).1
      | exact (Bool.or_eq_false_iff.mp hb).2

theorem foldl_lor_eq_zero {l : List Nat} {a : Nat}
    (h : l.foldl Nat.lor a = 0) : a = 0 ∧ ∀ x ∈ l, x = 0 := by
  induction l generalizing a with
  | nil => exact ⟨h, by simp⟩
  | cons x xs ih =>
    simp only [List.foldl_cons] at h
    obtain ⟨hax, hxs⟩ := ih h
    obtain ⟨ha, hx⟩ := nat_lor_eq_zero hax
    exact ⟨ha, by simpa [hx] using hxs⟩

theorem zip_xor_zero_eq : ∀ {a b : Str}, a.length = b.length →
    (∀ z ∈ List.zipWith (fun x y => Nat.xor x.toNat y.toNat) a b, z = 0) →
    a = b
  | [], [], _, _ => rfl
  | [], _ :: _, hlen, _ => by simp at hlen
  | _ :: _, [], hlen, _ => by simp at hlen
  | x :: xs, y :: ys, hlen, hall => by
    have hx : Nat.xor x.toNat y.toNat = 0 := hall _ (by simp)
    have hxy : x = y := char_toNat_injective (Nat.xor_eq_zero.mp hx)
    have hrest : xs = ys :=
      zip_xor_zero_eq (by simpa using hlen) (fun z hz => hall z (by simp [hz]))
    rw [hxy, hrest]

theorem foldl_lor_zeros (l : List Nat) (h : ∀ x ∈ l, x = 0) :
    l.foldl Nat.lor 0 = 0 := by
  induction l with
  | nil => rfl
  | cons x xs ih =>
    have hx : x = 0 := h x (by simp)
    simp only [List.foldl_cons, hx, Nat.zero_or]
    exact ih fun z hz => h z (by simp [hz])

theorem zipWith_xor_self (a : Str) :
    List.zipWith (fun x y => Nat.xor x.toNat y.toNat) a a
      = a.map (fun _ => 0) := by
  induction a with
  | nil => rfl
  | cons x xs ih =>
    simp only [List.zipWith_cons_cons, ih, List.map_cons]
    rw [show Nat.xor x.toNat x.toNat = 0 from Nat.xor_self _]

/-- The constant-time comparison decides string equality. -/
theorem constantTimeCompare_eq_true_iff (a b : Str) :
    constantTimeCompare a b = true ↔ a = b := by
  constructor
  · intro h
    unfold constantTimeCompare at h
    split at h
    · exact absurd h (by simp)
    · rename_i hlen
      simp only [ne_eq, Decidable.not_not] at hlen
      have hz := of_decide_eq_true h
      obtain ⟨-, hall⟩ := foldl_lor_eq_zero hz
      exact zip_xor_zero_eq hlen hall
  · rintro rfl
    unfold constantTimeCompare
    rw [if_neg (not_not_intro rfl)]
    refine decide_eq_true ?_
    refine foldl_lor_zeros _ fun z hz => ?_
    rw [zipWith_xor_self] at hz
    obtain ⟨w, -, hwz⟩ := List.mem_map.mp hz
    exact hwz.symm

/-- Splitting a record whose salt part contains no separator recovers
the salt as the first component. -/
theorem splitOnColon_append (salt rest : Str) (hs : ':' ∉ salt) :
    splitOnColon (salt ++ ':' :: rest) = salt :: splitOnColon rest := by
  induction salt with
  | nil => simp [splitOnColon]
  | cons c cs ih =>
    have hc : c ≠ ':' := fun h => hs (by simp [h])
    have hcs : ':' ∉ cs := fun h => hs (by simp [h])
    have ih2 := ih hcs
    simp only [List.cons_append, splitOnColon, if_neg hc]
    rw [show (cs.append (':' :: rest)) = cs ++ ':' :: rest from rfl, ih2]

/-- A record containing no separator splits into a single component. -/
theorem splitOnColon_no_colon (s : Str) (h : ':' ∉ s) :
    splitOnColon s = [s] := by
  induction s with
  | nil => rfl
  | cons c cs ih =>
    have hc : c ≠ ':' := fun hcc => h (by simp [hcc])
    have hcs : ':' ∉ cs := fun hcc => h (by simp [hcc])
    simp [splitOnColon, if_neg hc, ih hcs]

section MapLemmas

variable {K V : Type} [DecidableEq K]

theorem mapFind_erase_self (m : List (K × V)) (k : K) :
    mapFind (mapErase m k) k = none := by
  induction m with
  | nil => rfl
  | cons p rest ih =>
    by_cases hp : p.1 = k
    · rw [mapErase, if_pos hp]; exact ih
    · rw [mapErase, if_neg hp, mapFind, if_neg hp]; exact ih

theorem mapFind_erase_ne (m : List (K × V)) {k k' : K} (h : k' ≠ k) :
    mapFind (mapErase m k) k' = mapFind m k' := by
  induction m with
  | nil => rfl
  | cons p rest ih =>
    by_cases hp : p.1 = k
    · have hpk : p.1 ≠ k' := by rw [hp]; exact fun hh => h hh.symm
      rw [mapErase, if_pos hp, mapFind, if_neg hpk]; exact ih
    · rw [mapErase, if_neg hp, mapFind, mapFind]
      by_cases hk : p.1 = k'
      · rw [if_pos hk, if_pos hk]
      · rw [if_neg hk, if_neg hk]; exact ih

theorem mapFind_insert_self (m : List (K × V)) (k : K) (v : V) :
    mapFind (mapInsert m k v) k = some v := by
  rw [mapInsert, mapFind, if_pos rfl]

theorem mapFind_insert_ne (m : List (K × V)) {k k' : K} (v : V)
    (h : k' ≠ k) : mapFind (mapInsert m k v) k' = mapFind m k' := by
  rw [mapInsert, mapFind, if_neg (fun hh => h hh.symm)]
  exact mapFind_erase_ne m h

theorem mapFind_mem : ∀ {m : List (K × V)} {k : K} {v : V},
    mapFind m k = some v → (k, v) ∈ m
  | [], _, _, h => by simp [mapFind] at h
  | (k1, v1) :: rest, k, v, h => by
    rw [mapFind] at h
    by_cases hk : k1 = k
    · rw [if_pos hk] at h
      obtain rfl := Option.some_injective _ h
      subst hk
      exact List.mem_cons_self _ _
    · rw [if_neg hk] at h
      exact List.mem_cons_of_mem _ (mapFind_mem h)

theorem mem_mapErase {m : List (K × V)} {k : K} {p : K × V} :
    p ∈ mapErase m k ↔ p ∈ m ∧ p.1 ≠ k := by
  induction m with
  | nil => simp [mapErase]
  | cons q rest ih =>
    by_cases hq : q.1 = k
    · rw [mapErase, if_pos hq, ih]
      constructor
      · rintro ⟨hm, hk⟩; exact ⟨List.mem_cons_of_mem _ hm, hk⟩
      · rintro ⟨hm, hk⟩
        rcases List.mem_cons.mp hm with rfl | hm'
        · exact absurd hq hk
        · exact ⟨hm', hk⟩
    · rw [mapErase, if_neg hq, List.mem_cons, List.mem_cons, ih]
      constructor
      · rintro (rfl | ⟨hm, hk⟩)
        · exact ⟨Or.inl rfl, hq⟩
        · exact ⟨Or.inr hm, hk⟩
      · rintro ⟨rfl | hm, hk⟩
        · exact Or.inl rfl
        · exact Or.inr ⟨hm, hk⟩

theorem mapErase_sublist (m : List (K × V)) (k : K) :
    (mapErase m k).Sublist m := by
  induction m with
  | nil => exact List.Sublist.refl []
  | cons q rest ih =>
    by_cases hq : q.1 = k
    · rw [mapErase, if_pos hq]; exact ih.cons q
    · rw [mapErase, if_neg hq]; exact ih.cons₂ q

theorem nodup_keys_erase {m : List (K × V)} (k : K)
    (h : (m.map Prod.fst).Nodup) :
    ((mapErase m k).map Prod.fst).Nodup :=
  h.sublist ((mapErase_sublist m k).map Prod.fst)

theorem nodup_keys_insert {m : List (K × V)} (k : K) (v : V)
    (h : (m.map Prod.fst).Nodup) :
    ((mapInsert m k v).map Prod.fst).Nodup := by
  rw [mapInsert, List.map_cons, List.nodup_cons]
  refine ⟨fun hk => ?_, nodup_keys_erase k h⟩
  obtain ⟨p, hp, hpk⟩ := List.mem_map.mp hk
  exact (mem_mapErase.mp hp).2 hpk

end MapLemmas

/-! Characterisation lemmas for the store operations, used by the
invariant proofs and the claims. -/

theorem cancel_of_find_none {st : StoreState} {u : Str}
    (h : mapFind st.userPendingTx u = none) :
    cancelPendingTransaction st u = (false, st) := by
  rw [cancelPendingTransaction, h]

theorem cancel_of_find_some {st : StoreState} {u : Str} {txId : Nat}
    (h : mapFind st.userPendingTx u = some txId) :
    cancelPendingTransaction st u =
      (true,
       { st with
          pendingTransactions := mapErase st.pendingTransactions txId,
          userPendingTx := mapErase st.userPendingTx u }) := by
  rw [cancelPendingTransaction, h]

theorem cancel_find_none (st : StoreState) (u : Str) :
    mapFind (cancelPendingTransaction st u).2.userPendingTx u = none := by
  cases h : mapFind st.userPendingTx u with
  | none => rw [cancel_of_find_none h]; exact h
  | some txId => rw [cancel_of_find_some h]; exact mapFind_erase_self _ u

theorem cancel_nextId (st : StoreState) (u : Str) :
    (cancelPendingTransaction st u).2.nextId = st.nextId := by
  cases h : mapFind st.userPendingTx u with
  | none => rw [cancel_of_find_none h]
  | some txId => rw [cancel_of_find_some h]

theorem create_fst (st : StoreState) (now : Nat) (params : CreateParams) :
    (createPendingTransaction st now params).1 =
      { id := (cancelPendingTransaction st params.userId).2.nextId
        userId := params.userId
        phoneNumber := params.phoneNumber
        kind := params.kind
        amount := params.amount
        recipient := params.recipient
        recipientPhone := params.recipientPhone
        currency := ['P','Y','U','S','D']
        pin := none
        createdAt := now
        expiresAt := now + expiryWindowMs } := rfl

theorem create_snd (st : StoreState) (now : Nat) (params : CreateParams) :
    (createPendingTransaction st now params).2 =
      { pendingTransactions :=
          mapInsert (cancelPendingTransaction st params.userId).2.pendingTransactions
            (cancelPendingTransaction st params.userId).2.nextId
            (createPendingTransaction st now params).1
        userPendingTx :=
          mapInsert (cancelPendingTransaction st params.userId).2.userPendingTx
            params.userId (cancelPendingTransaction st params.userId).2.nextId
        nextId := (cancelPendingTransaction st params.userId).2.nextId + 1 } := rfl

theorem get_of_find_none {st : StoreState} {now : Nat} {u : Str}
    (h : mapFind st.userPendingTx u = none) :
    getPendingTransaction st now u = (none, st) := by
  rw [getPendingTransaction, h]

theorem get_of_tx_none {st : StoreState} {now : Nat} {u : Str} {txId : Nat}
    (h1 : mapFind st.userPendingTx u = some txId)
    (h2 : mapFind st.pendingTransactions txId = none) :
    getPendingTransaction st now u = (none, st) := by
  simp only [getPendingTransaction, h1, h2]

theorem get_of_expired {st : StoreState} {now : Nat} {u : Str} {txId : Nat}
    {tx : PendingTransaction}
    (h1 : mapFind st.userPendingTx u = some txId)
    (h2 : mapFind st.pendingTransactions txId = some tx)
    (hexp : now > tx.expiresAt) :
    getPendingTransaction st now u = (none, (cancelPendingTransaction st u).2) := by
  simp only [getPendingTransaction, h1, h2]
  exact if_pos hexp

theorem get_of_live {st : StoreState} {now : Nat} {u : Str} {txId : Nat}
    {tx : PendingTransaction}
    (h1 : mapFind st.userPendingTx u = some txId)
    (h2 : mapFind st.pendingTransactions txId = some tx)
    (hexp : ¬ now > tx.expiresAt) :
    getPendingTransaction st now u = (some tx, st) := by
  simp only [getPendingTransaction, h1, h2]
  exact if_neg hexp

theorem get_some_facts {st st1 : StoreState} {now : Nat} {u : Str}
    {tx : PendingTransaction}
    (h : getPendingTransaction st now u = (some tx, st1)) :
    st1 = st ∧ ¬ now > tx.expiresAt ∧
      ∃ txId, mapFind st.userPendingTx u = some txId ∧
        mapFind st.pendingTransactions txId = some tx := by
  cases h1 : mapFind st.userPendingTx u with
  | none => rw [get_of_find_none h1] at h; cases h
  | some txId =>
    cases h2 : mapFind st.pendingTransactions txId with
    | none => rw [get_of_tx_none h1 h2] at h; cases h
    | some tx0 =>
      by_cases hexp : now > tx0.expiresAt
      · rw [get_of_expired h1 h2 hexp] at h; cases h
      · rw [get_of_live h1 h2 hexp, Prod.mk.injEq] at h
        obtain ⟨htx0, hst⟩ := h
        obtain rfl := Option.some_injective _ htx0
        exact ⟨hst.symm, hexp, txId, rfl, h2⟩

theorem confirm_of_get_none {st st1 : StoreState} {now : Nat} {u : Str}
    (pin : Option Str)
    (h : getPendingTransaction st now u = (none, st1)) :
    confirmPendingTransaction st now u pin = (none, st1) := by
  rw [confirmPendingTransaction, h]

theorem confirm_of_get_some {st st1 : StoreState} {now : Nat} {u : Str}
    {tx : PendingTransaction} (pin : Option Str)
    (h : getPendingTransaction st now u = (some tx, st1)) :
    confirmPendingTransaction st now u pin =
      (some (attachPin pin tx),
       { st1 with
          pendingTransactions := mapErase st1.pendingTransactions tx.id,
          userPendingTx := mapErase st1.userPendingTx u }) := by
  rw [confirmPendingTransaction, h]

theorem inv_cancel {st : StoreState} (hInv : InvStore st) (u : Str) :
    InvStore (cancelPendingTransaction st u).2 := by
  obtain ⟨hnd, hmem⟩ := hInv
  cases h : mapFind st.userPendingTx u with
  | none => rw [cancel_of_find_none h]; exact ⟨hnd, hmem⟩
  | some txId =>
    rw [cancel_of_find_some h]
    refine ⟨nodup_keys_erase txId hnd, fun p hp => ?_⟩
    obtain ⟨hpm, hpk⟩ := mem_mapErase.mp hp
    obtain ⟨hid, hfind⟩ := hmem p hpm
    refine ⟨hid, ?_⟩
    by_cases hu : p.2.userId = u
    · rw [hu, h] at hfind
      exact absurd (Option.some_injective _ hfind).symm hpk
    · exact (mapFind_erase_ne st.userPendingTx hu).trans hfind

theorem inv_create {st : StoreState} (hInv : InvStore st) (now : Nat)
    (params : CreateParams) :
    InvStore (createPendingTransaction st now params).2 := by
  have hInv1 := inv_cancel hInv params.userId
  have hU := cancel_find_none st params.userId
  obtain ⟨hnd1, hmem1⟩ := hInv1
  rw [create_snd]
  refine ⟨nodup_keys_insert _ _ hnd1, fun p hp => ?_⟩
  rw [mapInsert, List.mem_cons] at hp
  cases hp with
  | inl hnew =>
    subst hnew
    refine ⟨by rw [create_fst], ?_⟩
    rw [create_fst]
    exact mapFind_insert_self _ _ _
  | inr hold =>
    obtain ⟨hpm, hpk⟩ := mem_mapErase.mp hold
    obtain ⟨hid, hfind⟩ := hmem1 p hpm
    refine ⟨hid, ?_⟩
    by_cases hu : p.2.userId = params.userId
    · rw [hu, hU] at hfind
      exact absurd hfind (by simp)
    · rw [mapFind_insert_ne _ _ hu]
      exact hfind

theorem inv_get {st : StoreState} (hInv : InvStore st) (now : Nat)
    (u : Str) : InvStore (getPendingTransaction st now u).2 := by
  cases h1 : mapFind st.userPendingTx u with
  | none => rw [get_of_find_none h1]; exact hInv
  | some txId =>
    cases h2 : mapFind st.pendingTransactions txId with
    | none => rw [get_of_tx_none h1 h2]; exact hInv
    | some tx =>
      by_cases hexp : now > tx.expiresAt
      · rw [get_of_expired h1 h2 hexp]; exact inv_cancel hInv u
      · rw [get_of_live h1 h2 hexp]; exact hInv

theorem inv_confirm {st : StoreState} (hInv : InvStore st) (now : Nat)
    (u : Str) (pin : Option Str) :
    InvStore (confirmPendingTransaction st now u pin).2 := by
  rcases hg : getPendingTransaction st now u with ⟨res, st1⟩
  cases res with
  | none =>
    rw [confirm_of_get_none pin hg]
    have := inv_get hInv now u
    rwa [hg] at this
  | some tx =>
    obtain ⟨rfl, hexp, txId, h1, h2⟩ := get_some_facts hg
    obtain ⟨hnd, hmem⟩ := hInv
    have htxid : tx.id = txId := (hmem _ (mapFind_mem h2)).1
    rw [confirm_of_get_some pin hg]
    refine ⟨nodup_keys_erase tx.id hnd, fun p hp => ?_⟩
    obtain ⟨hpm, hpk⟩ := mem_mapErase.mp hp
    obtain ⟨hid, hfind⟩ := hmem p hpm
    refine ⟨hid, ?_⟩
    by_cases hu : p.2.userId = u
    · rw [hu, h1] at hfind
      have hptx : p.1 = txId := (Option.some_injective _ hfind).symm
      rw [← htxid] at hptx
      exact absurd hptx hpk
    · exact (mapFind_erase_ne _ hu).trans hfind

theorem inv_step {st : StoreState} (hInv : InvStore st) (op : StoreOp) :
    InvStore (stepStore st op) := by
  cases op with
  | create now params => exact inv_create hInv now params
  | get now u => exact inv_get hInv now u
  | confirm now u pin => exact inv_confirm hInv now u pin
  | cancel u => exact inv_cancel hInv u

theorem inv_foldl {st : StoreState} (hInv : InvStore st)
    (ops : List StoreOp) : InvStore (ops.foldl stepStore st) := by
  induction ops generalizing st with
  | nil => exact hInv
  | cons op rest ih => exact ih (inv_step hInv op)

theorem inv_empty : InvStore emptyStore := by
  constructor
  · simp [emptyStore]
  · intro p hp
    simp [emptyStore] at hp

theorem inv_runStore (ops : List StoreOp) : InvStore (runStore ops) :=
  inv_foldl inv_empty ops

/-! ## Claims about the Pending Action Store -/

theorem count_user_le_one {st : StoreState} (hInv : InvStore st) (u : Str) :
    (st.pendingTransactions.filter
      (fun p => decide (p.2.userId = u))).length ≤ 1 := by
  obtain ⟨hnd, hmem⟩ := hInv
  have hall : ∀ p ∈ st.pendingTransactions.filter
      (fun p => decide (p.2.userId = u)),
      mapFind st.userPendingTx u = some p.1 := by
    intro p hp
    obtain ⟨hm, hpred⟩ := List.mem_filter.mp hp
    have hu : p.2.userId = u := of_decide_eq_true hpred
    have h2 := (hmem p hm).2
    rwa [hu] at h2
  have hndl : ((st.pendingTransactions.filter
      (fun p => decide (p.2.userId = u))).map Prod.fst).Nodup :=
    hnd.sublist ((List.filter_sublist _).map Prod.fst)
  rcases hflt : st.pendingTransactions.filter
      (fun p => decide (p.2.userId = u)) with - | ⟨x, _ | ⟨y, rest⟩⟩
  · rw [hflt]; simp
  · rw [hflt]; simp
  · exfalso
    rw [hflt] at hall hndl
    have hx := hall x (by simp)
    have hy := hall y (by simp)
    rw [hx] at hy
    have hxy : x.1 = y.1 := Option.some_injective _ hy
    rw [List.map_cons, List.nodup_cons] at hndl
    exact hndl.1 (by rw [hxy]; simp)

/-- C2: starting from the empty store, after any sequence of
create/get/confirm/cancel operations every user owns at most one
registered pending transaction (hence at most one live one); moreover a
second create for the same user strictly supersedes the first: any
transaction returned by a subsequent confirm is the second one (never the
first), and confirm does return the second one while it is unexpired,
with the supplied secret attached. -/
theorem at_most_one_pending_per_user :
    (∀ (ops : List StoreOp) (u : Str),
      ((runStore ops).pendingTransactions.filter
        (fun p => decide (p.2.userId = u))).length ≤ 1) ∧
    (∀ (st : StoreState) (now1 now2 now3 : Nat) (p1 p2 : CreateParams)
        (pin : Option Str), p1.userId = p2.userId →
      (∀ r, (confirmPendingTransaction
            (createPendingTransaction
              (createPendingTransaction st now1 p1).2 now2 p2).2
            now3 p1.userId pin).1 = some r →
        r.id = (createPendingTransaction
            (createPendingTransaction st now1 p1).2 now2 p2).1.id ∧
        r.id ≠ (createPendingTransaction st now1 p1).1.id) ∧
      (¬ now3 > (createPendingTransaction
            (createPendingTransaction st now1 p1).2 now2 p2).1.expiresAt →
        (confirmPendingTransaction
            (createPendingTransaction
              (createPendingTransaction st now1 p1).2 now2 p2).2
            now3 p1.userId pin).1 =
          some (attachPin pin (createPendingTransaction
            (createPendingTransaction st now1 p1).2 now2 p2).1))) := by
  constructor
  · intro ops u
    exact count_user_le_one (inv_runStore ops) u
  · intro st now1 now2 now3 p1 p2 pin hu
    set stA := (createPendingTransaction st now1 p1).2 with hstA
    set tx2 := (createPendingTransaction stA now2 p2).1 with htx2
    set stB := (createPendingTransaction stA now2 p2).2 with hstB
    have hid2 : tx2.id = (cancelPendingTransaction stA p2.userId).2.nextId := by
      rw [htx2, create_fst]
    have hfind1 : mapFind stB.userPendingTx p1.userId = some tx2.id := by
      rw [hstB, create_snd, hu, ← hid2]
      exact mapFind_insert_self _ _ _
    have hfind2 : mapFind stB.pendingTransactions tx2.id = some tx2 := by
      rw [hstB, create_snd, htx2]
      rw [show ((createPendingTransaction stA now2 p2).1.id
          = (cancelPendingTransaction stA p2.userId).2.nextId) from hid2]
      exact mapFind_insert_self _ _ _
    have hid1 : (createPendingTransaction st now1 p1).1.id = st.nextId := by
      rw [create_fst]
      exact cancel_nextId st p1.userId
    have hidA : stA.nextId = st.nextId + 1 := by
      rw [hstA, create_snd, cancel_nextId]
    have hid2' : tx2.id = st.nextId + 1 := by
      rw [hid2, cancel_nextId, hidA]
    by_cases hexp : now3 > tx2.expiresAt
    · have hget := get_of_expired hfind1 hfind2 hexp
      have hconf := confirm_of_get_none pin hget
      constructor
      · intro r hr
        rw [hconf] at hr
        cases hr
      · intro hne
        exact absurd hexp hne
    · have hget := get_of_live hfind1 hfind2 hexp
      have hconf := confirm_of_get_some pin hget
      constructor
      · intro r hr
        rw [hconf] at hr
        obtain rfl := Option.some_injective _ hr
        have hrid : (attachPin pin tx2).id = tx2.id := by
          cases pin with
          | none => rfl
          | some p =>
            rw [attachPin]
            by_cases hp : p.isEmpty
            · rw [if_pos hp]
            · rw [if_neg hp]
        refine ⟨hrid, ?_⟩
        rw [hrid, hid1, hid2']
        exact Nat.succ_ne_self st.nextId
      · intro _
        rw [hconf]

/-- C2 witness: two staged sends for user `u`; the confirm after the
second returns the second (id `1`) and not the first (id `0`). -/
theorem at_most_one_pending_per_user_witness :
    (((runStore [.create 0 demoParams, .create 1 demoParams,
        .confirm 2 ['u'] none]).pendingTransactions.filter
      (fun p => decide (p.2.userId = ['u']))).length ≤ 1) ∧
    (∀ r, (confirmPendingTransaction
          (createPendingTransaction
            (createPendingTransaction emptyStore 0 demoParams).2 1 demoParams).2
          2 demoParams.userId none).1 = some r →
      r.id = (createPendingTransaction
          (createPendingTransaction emptyStore 0 demoParams).2 1 demoParams).1.id ∧
      r.id ≠ (createPendingTransaction emptyStore 0 demoParams).1.id) :=
  ⟨at_most_one_pending_per_user.1 _ _,
   ((at_most_one_pending_per_user.2 emptyStore 0 1 2 demoParams demoParams
      none rfl).1)⟩

/-- C3: confirm is get-then-remove: its result is the result of get with
the supplied secret attached, and whenever it returns a transaction the
user's mapping is gone in the same step, so an immediately following get
or confirm for that user returns nothing. -/
theorem confirm_is_get_then_remove :
    ∀ (st : StoreState) (now : Nat) (u : Str) (pin : Option Str),
      ((confirmPendingTransaction st now u pin).1 =
        ((getPendingTransaction st now u).1).map (attachPin pin)) ∧
      (∀ tx, (confirmPendingTransaction st now u pin).1 = some tx →
        ∀ (now2 : Nat) (pin2 : Option Str),
          (getPendingTransaction
            (confirmPendingTransaction st now u pin).2 now2 u).1 = none ∧
          (confirmPendingTransaction
            (confirmPendingTransaction st now u pin).2 now2 u pin2).1 = none) := by
  intro st now u pin
  rcases hg : getPendingTransaction st now u with ⟨res, st1⟩
  cases res with
  | none =>
    rw [confirm_of_get_none pin hg]
    constructor
    · rfl
    · intro tx htx
      cases htx
  | some tx0 =>
    rw [confirm_of_get_some pin hg]
    constructor
    · rfl
    · intro tx _ now2 pin2
      have herase : mapFind (mapErase st1.userPendingTx u) u = none :=
        mapFind_erase_self _ u
      have hget2 := @get_of_find_none
        { st1 with
          pendingTransactions := mapErase st1.pendingTransactions tx0.id,
          userPendingTx := mapErase st1.userPendingTx u }
        now2 u herase
      refine ⟨by rw [hget2], ?_⟩
      rw [confirm_of_get_none pin2 hget2]

/-- C3 witness: confirming the staged demonstration send equals get with
the PIN attached, and a second get or confirm straight after sees
nothing. -/
theorem confirm_is_get_then_remove_witness :
    ((confirmPendingTransaction stagedSendStore 5 ['u'] (some ['1','2','3','4'])).1 =
      ((getPendingTransaction stagedSendStore 5 ['u']).1).map
        (attachPin (some ['1','2','3','4']))) ∧
    ((getPendingTransaction
        (confirmPendingTransaction stagedSendStore 5 ['u']
          (some ['1','2','3','4'])).2 6 ['u']).1 = none ∧
      (confirmPendingTransaction
        (confirmPendingTransaction stagedSendStore 5 ['u']
          (some ['1','2','3','4'])).2 6 ['u'] none).1 = none) :=
  ⟨(confirm_is_get_then_remove stagedSendStore 5 ['u'] (some ['1','2','3','4'])).1,
   (confirm_is_get_then_remove stagedSendStore 5 ['u'] (some ['1','2','3','4'])).2
     (attachPin (some ['1','2','3','4']) demoPendingTx) (by decide) 6 none⟩

/-- C10: cancel reports `true` exactly when a `userPendingTx` mapping
exists, even when the stored transaction is already past its expiry — at
an instant where get would return nothing — and reports `false` only when
no mapping exists. -/
theorem cancel_true_iff_mapping_exists :
    ∀ (st : StoreState) (now : Nat) (u : Str),
      ((cancelPendingTransaction st u).1 = true ↔
        (mapFind st.userPendingTx u).isSome = true) ∧
      (∀ (txId : Nat) (tx : PendingTransaction),
        mapFind st.userPendingTx u = some txId →
        mapFind st.pendingTransactions txId = some tx →
        now > tx.expiresAt →
        (getPendingTransaction st now u).1 = none ∧
        (cancelPendingTransaction st u).1 = true) := by
  intro st now u
  constructor
  · cases h : mapFind st.userPendingTx u with
    | none => rw [cancel_of_find_none h]; simp
    | some txId => rw [cancel_of_find_some h]; simp
  · intro txId tx h1 h2 hexp
    refine ⟨?_, ?_⟩
    · rw [get_of_expired h1 h2 hexp]
    · rw [cancel_of_find_some h1]

/-- C10 witness: in the demonstration store at time `300001` the staged
send is expired — get returns nothing — yet cancel still returns
`true`. -/
theorem cancel_true_iff_mapping_exists_witness :
    (getPendingTransaction stagedSendStore 300001 ['u']).1 = none ∧
    (cancelPendingTransaction stagedSendStore ['u']).1 = true :=
  (cancel_true_iff_mapping_exists stagedSendStore 300001 ['u']).2
    0 demoPendingTx (by decide) (by decide) (by decide)

/-! ## Claims about the PIN Guard -/

/-- C7: for any well-formed 4-6 digit PIN and any salt the hash operation
may draw (a nonempty hex salt, so free of the separator, with a nonempty
separator-free derived key), verification accepts exactly the PIN the
record was created from: it accepts the original PIN, and rejects any
single-digit mutation of it provided the key-derivation primitive does not
collide on the two PINs for that salt. -/
theorem verify_accepts_exactly_hashed_pin :
    ∀ (kdf : Str → Str → Str) (salt p p2 record : Str),
      isValidPinFormat p = true →
      isValidPinFormat p2 = true →
      isSingleDigitMutation p p2 = true →
      ':' ∉ salt → salt ≠ [] →
      ':' ∉ kdf p salt → kdf p salt ≠ [] →
      kdf p2 salt ≠ kdf p salt →
      hashPin kdf salt p = some record →
      verifyPin kdf p record = true ∧ verifyPin kdf p2 record = false := by
  intro kdf salt p p2 record hp hp2 _hmut hsc hse hkc hke hne hhash
  rw [hashPin, if_pos hp] at hhash
  obtain rfl := Option.some_injective _ hhash.symm
  have hsplit : splitOnColon (salt ++ ':' :: kdf p salt)
      = salt :: kdf p salt :: [] := by
    rw [splitOnColon_append salt _ hsc, splitOnColon_no_colon _ hkc]
  have hseb : salt.isEmpty = false := by
    cases salt with
    | nil => exact absurd rfl hse
    | cons c cs => rfl
  have hkeb : (kdf p salt).isEmpty = false := by
    cases hk : kdf p salt with
    | nil => exact absurd hk hke
    | cons c cs => rfl
  constructor
  · rw [verifyPin, hp]
    simp only [Bool.not_true, Bool.false_eq_true, if_false, hsplit, hseb,
      hkeb, Bool.or_self, reduceIte]
    exact (constantTimeCompare_eq_true_iff _ _).mpr rfl
  · rw [verifyPin, hp2]
    simp only [Bool.not_true, Bool.false_eq_true, if_false, hsplit, hseb,
      hkeb, Bool.or_self, reduceIte]
    rw [Bool.eq_false_iff]
    intro hctc
    exact hne ((constantTimeCompare_eq_true_iff _ _).mp hctc).symm

/-- C7 witness: with the demonstration key derivation and salt `ab`,
the record hashed from `1234` verifies against `1234` and rejects the
single-digit mutation `1235`. -/
theorem verify_accepts_exactly_hashed_pin_witness :
    verifyPin demoKdf ['1','2','3','4'] demoPinHash = true ∧
    verifyPin demoKdf ['1','2','3','5'] demoPinHash = false :=
  verify_accepts_exactly_hashed_pin demoKdf ['a','b'] ['1','2','3','4']
    ['1','2','3','5'] demoPinHash (by decide) (by decide) (by decide)
    (by decide) (by decide) (by decide) (by decide) (by decide) (by decide)

/-- C8: verification is total and rejecting on malformed input: a PIN that
is not exactly 4-6 digits, a stored record without a separator, an empty
salt part, or an empty hash part all yield `false` (and hence never a
match). -/
theorem verify_false_on_malformed :
    ∀ (kdf : Str → Str → Str) (pin stored : Str),
      (isValidPinFormat pin = false ∨ ':' ∉ stored ∨
        (∃ hash rest, splitOnColon stored = [] :: hash :: rest) ∨
        (∃ salt rest, splitOnColon stored = salt :: [] :: rest)) →
      verifyPin kdf pin stored = false := by
  intro kdf pin stored h
  rcases h with hpin | hnc | ⟨hash, rest, hsp⟩ | ⟨salt, rest, hsp⟩
  · rw [verifyPin, hpin]
    rfl
  · rw [verifyPin, splitOnColon_no_colon stored hnc]
    cases isValidPinFormat pin <;> rfl
  · rw [verifyPin, hsp]
    cases isValidPinFormat pin <;> rfl
  · rw [verifyPin, hsp]
    simp only [List.isEmpty_nil, Bool.or_true, if_true, reduceIte]
    cases isValidPinFormat pin <;> rfl

/-- C8 witness: a short PIN, a record with no separator, an empty salt
and an empty hash part are each rejected. -/
theorem verify_false_on_malformed_witness :
    verifyPin demoKdf ['1','2','3'] demoPinHash = false ∧
    verifyPin demoKdf ['1','2','3','4'] ['a','b','c'] = false ∧
    verifyPin demoKdf ['1','2','3','4'] [':','x','y'] = false ∧
    verifyPin demoKdf ['1','2','3','4'] ['x','y',':'] = false :=
  ⟨verify_false_on_malformed demoKdf ['1','2','3'] demoPinHash
      (Or.inl (by decide)),
   verify_false_on_malformed demoKdf ['1','2','3','4'] ['a','b','c']
      (Or.inr (Or.inl (by decide))),
   verify_false_on_malformed demoKdf ['1','2','3','4'] [':','x','y']
      (Or.inr (Or.inr (Or.inl ⟨['x','y'], [], by decide⟩))),
   verify_false_on_malformed demoKdf ['1','2','3','4'] ['x','y',':']
      (Or.inr (Or.inr (Or.inr ⟨['x','y'], [], by decide⟩)))⟩

/-! ## Claim about the Intent Classifier -/

theorem fallbackParse_unknown_eq {msg m2 : Str}
    (h : fallbackParse msg = .unknown m2) : m2 = msg := by
  simp only [fallbackParse] at h
  repeat' split at h
  all_goals
    first
      | (injection h with h2; exact h2.symm)
      | cases h

theorem fallbackParse_confirm {msg : Str}
    (h : isConfirmWord (trim (lowerStr msg)) = true) :
    fallbackParse msg = .confirm := by
  simp only [fallbackParse]
  simp only [h, reduceIte]

theorem fallbackParse_cancel {msg : Str}
    (h1 : isConfirmWord (trim (lowerStr msg)) = false)
    (h2 : isCancelWord (trim (lowerStr msg)) = true) :
    fallbackParse msg = .cancel := by
  simp only [fallbackParse]
  simp only [h1, h2, Bool.false_eq_true, if_false, reduceIte]

/-- C9: `parseIntent` is a total function into the closed intent union:
exact confirm/cancel words are decided without consulting the LLM
collaborator; any collaborator failure or schema-invalid reply falls back
to the deterministic matcher; and whenever the result is an unknown
intent, it carries the original message unless the collaborator itself
returned that unknown intent. -/
theorem parseIntent_total_and_guarded :
    (∀ (cfg : Bool) (llm : Str → LLMOutcome) (msg : Str),
      isConfirmWord (trim (lowerStr msg)) = true →
      parseIntent cfg llm msg = ⟨.confirm, false⟩) ∧
    (∀ (cfg : Bool) (llm : Str → LLMOutcome) (msg : Str),
      isConfirmWord (trim (lowerStr msg)) = false →
      isCancelWord (trim (lowerStr msg)) = true →
      parseIntent cfg llm msg = ⟨.cancel, false⟩) ∧
    (∀ (cfg : Bool) (llm : Str → LLMOutcome) (msg : Str),
      llm msg = .failure ∨ llm msg = .invalidIntent →
      (parseIntent cfg llm msg).intent = fallbackParse msg) ∧
    (∀ (cfg : Bool) (llm : Str → LLMOutcome) (msg m2 : Str),
      (parseIntent cfg llm msg).intent = .unknown m2 →
      m2 = msg ∨ llm msg = .ok (.unknown m2)) := by
  refine ⟨?_, ?_, ?_, ?_⟩
  · intro cfg llm msg h
    rw [parseIntent]
    simp only [h, if_true, reduceIte]
  · intro cfg llm msg h1 h2
    rw [parseIntent]
    simp only [h1, h2, Bool.false_eq_true, if_false, if_true, reduceIte]
  · intro cfg llm msg h
    by_cases hcw : isConfirmWord (trim (lowerStr msg)) = true
    · rw [parseIntent]
      simp only [hcw, reduceIte]
      rw [fallbackParse_confirm hcw]
    · rw [Bool.not_eq_true] at hcw
      by_cases hca : isCancelWord (trim (lowerStr msg)) = true
      · rw [parseIntent]
        simp only [hcw, hca, Bool.false_eq_true, if_false, reduceIte]
        rw [fallbackParse_cancel hcw hca]
      · rw [Bool.not_eq_true] at hca
        rw [parseIntent]
        cases cfg with
        | false =>
          simp only [hcw, hca, Bool.false_eq_true, if_false, Bool.not_false,
            if_true, reduceIte]
        | true =>
          rcases h with hfail | hinv
          · simp only [hcw, hca, Bool.false_eq_true, if_false,
              Bool.not_true, hfail, reduceIte]
          · simp only [hcw, hca, Bool.false_eq_true, if_false,
              Bool.not_true, hinv, reduceIte]
  · intro cfg llm msg m2 h
    rw [parseIntent] at h
    by_cases hcw : isConfirmWord (trim (lowerStr msg)) = true
    · simp only [hcw, reduceIte] at h
      cases h
    · rw [Bool.not_eq_true] at hcw
      by_cases hca : isCancelWord (trim (lowerStr msg)) = true
      · simp only [hcw, hca, Bool.false_eq_true, if_false, reduceIte] at h
        cases h
      · rw [Bool.not_eq_true] at hca
        cases cfg with
        | false =>
          simp only [hcw, hca, Bool.false_eq_true, if_false, Bool.not_false,
            if_true, reduceIte] at h
          exact Or.inl (fallbackParse_unknown_eq h)
        | true =>
          simp only [hcw, hca, Bool.false_eq_true, if_false,
            Bool.not_true, reduceIte] at h
          cases hllm : llm msg with
          | ok i =>
            rw [hllm] at h
            simp only at h
            exact Or.inr (by rw [h])
          | failure =>
            rw [hllm] at h
            simp only at h
            exact Or.inl (fallbackParse_unknown_eq h)
          | invalidIntent =>
            rw [hllm] at h
            simp only at h
            exact Or.inl (fallbackParse_unknown_eq h)

/-- C9 witness: a padded upper-case confirm word bypasses the LLM, `No`
cancels, a failing collaborator on a balance question falls back to the
deterministic matcher, and an unmatched message yields an unknown intent
carrying the original message. -/
theorem parseIntent_total_and_guarded_witness :
    parseIntent true (fun _ => .failure) [' ','Y','E','S',' '] =
      ⟨.confirm, false⟩ ∧
    parseIntent true (fun _ => .failure) ['N','o'] = ⟨.cancel, false⟩ ∧
    (parseIntent true (fun _ => .failure)
      ['m','y',' ','b','a','l','a','n','c','e']).intent =
        fallbackParse ['m','y',' ','b','a','l','a','n','c','e'] ∧
    (['h','e','l','l','o'] = ['h','e','l','l','o'] ∨
      (fun _ => LLMOutcome.failure) ['h','e','l','l','o'] =
        .ok (.unknown ['h','e','l','l','o'])) :=
  ⟨parseIntent_total_and_guarded.1 true _ _ (by decide),
   parseIntent_total_and_guarded.2.1 true _ _ (by decide) (by decide),
   parseIntent_total_and_guarded.2.2.1 true _ _ (Or.inl rfl),
   parseIntent_total_and_guarded.2.2.2 true (fun _ => LLMOutcome.failure)
     ['h','e','l','l','o'] ['h','e','l','l','o'] (by decide)⟩

/-! ## Claims about the Action Executor -/

theorem map_id_of_mem {l : List TxRow} {f : TxRow → TxRow}
    (h : ∀ r ∈ l, f r = r) : l.map f = l := by
  induction l with
  | nil => rfl
  | cons x xs ih =>
    rw [List.map_cons, h x (by simp), ih (fun r hr => h r (by simp [hr]))]

theorem execSend_of_no_gas {env : Env} {uid ph rp : Str}
    {ptx : PendingTransaction} {db : DataBase}
    (hrp : env.userPhone ptx.recipient = some rp)
    (hgas : env.hasGas (env.walletAddr uid) = false) :
    executeSendTransaction env uid ph ptx db =
      ([.replied .insufficientGas], db) := by
  simp only [executeSendTransaction, hrp, hgas, Bool.not_false, if_true,
    reduceIte]

theorem execSend_of_transfer_fail {env : Env} {uid ph rp : Str}
    {ptx : PendingTransaction} {db : DataBase}
    (hrp : env.userPhone ptx.recipient = some rp)
    (hgas : env.hasGas (env.walletAddr uid) = true)
    (htr : env.transfer (env.walletAddr uid) (env.walletAddr ptx.recipient)
      ptx.amount = none) :
    executeSendTransaction env uid ph ptx db =
      ([.replied .sending,
        .transferInvoked (env.walletAddr uid) (env.walletAddr ptx.recipient)
          ptx.amount,
        .replied .txFailed], db) := by
  simp only [executeSendTransaction, hrp, hgas, Bool.not_true,
    Bool.false_eq_true, if_false, htr, reduceIte]

theorem execSend_of_transfer_ok {env : Env} {uid ph rp hx : Str}
    {ptx : PendingTransaction} {db : DataBase}
    (hrp : env.userPhone ptx.recipient = some rp)
    (hgas : env.hasGas (env.walletAddr uid) = true)
    (htr : env.transfer (env.walletAddr uid) (env.walletAddr ptx.recipient)
      ptx.amount = some hx) :
    (executeSendTransaction env uid ph ptx db).1 =
      [.replied .sending,
       .transferInvoked (env.walletAddr uid) (env.walletAddr ptx.recipient)
         ptx.amount,
       .replied (.txSuccess hx),
       .sentWhatsApp ptx.recipientPhone (.txSuccess hx)] := by
  simp only [executeSendTransaction, hrp, hgas, Bool.not_true,
    Bool.false_eq_true, if_false, htr, reduceIte]

theorem handleSend_of_insufficient {env : Env} {st : StoreState} {now : Nat}
    {uid ph amt rcpt rp : Str}
    (hnp : env.normalizePhone rcpt = some rp)
    (hpin : (env.pinHashOf uid).isNone = false)
    (hlt : env.num (env.pyusdBalance (env.walletAddr uid)) < env.num amt) :
    handleSend env st now uid ph amt rcpt =
      ([.replied (.insufficientBalance
          (env.pyusdBalance (env.walletAddr uid)) amt)], st) := by
  simp only [handleSend, hnp, hpin, Bool.false_eq_true, if_false, hlt,
    if_true, reduceIte]

theorem handleSend_of_staged {env : Env} {st : StoreState} {now : Nat}
    {uid ph amt rcpt rp : Str}
    (hnp : env.normalizePhone rcpt = some rp)
    (hpin : (env.pinHashOf uid).isNone = false)
    (hge : ¬ env.num (env.pyusdBalance (env.walletAddr uid)) < env.num amt) :
    handleSend env st now uid ph amt rcpt =
      ([.replied (.confirmationRequest amt rp (env.pinHashOf uid).isSome)],
       (createPendingTransaction st now
         { userId := uid, phoneNumber := ph, kind := .send, amount := amt,
           recipient := env.userIdOf rp, recipientPhone := rp }).2) := by
  simp only [handleSend, hnp, hpin, Bool.false_eq_true, if_false, hge,
    reduceIte]

/-- C4 counterexample: in the demonstration environment the sender's
balance reads `5` against a staged amount of `10`, yet executing the
confirmed send still invokes the transfer and emits the success trace —
no `InsufficientFunds` signal and no balance re-check happen at
execution. -/
theorem execute_send_skips_balance_check :
    lowBalanceEnv.num (lowBalanceEnv.pyusdBalance
      (lowBalanceEnv.walletAddr ['u'])) <
        lowBalanceEnv.num demoPendingTx.amount ∧
    (executeSendTransaction lowBalanceEnv ['u'] ['p'] demoPendingTx
      emptyDb).1 =
      [.replied .sending,
       .transferInvoked ['W','u'] ['W','r'] ['1','0'],
       .replied (.txSuccess ['h','x']),
       .sentWhatsApp ['q'] (.txSuccess ['h','x'])] := by
  decide

/-- C4 as amended: the token-balance check (the `InsufficientFunds`
signal) happens in `handleSend`, before the pending action is staged;
executing a confirmed send checks only the gas asset (signalling
`InsufficientGas`), and once gas is available it invokes the transfer
without re-checking the token balance. -/
theorem balance_checked_at_staging_not_at_execution :
    (∀ (env : Env) (st : StoreState) (now : Nat) (uid ph amt rcpt rp : Str),
      env.normalizePhone rcpt = some rp →
      (env.pinHashOf uid).isNone = false →
      env.num (env.pyusdBalance (env.walletAddr uid)) < env.num amt →
      handleSend env st now uid ph amt rcpt =
        ([.replied (.insufficientBalance
            (env.pyusdBalance (env.walletAddr uid)) amt)], st)) ∧
    (∀ (env : Env) (uid ph rp : Str) (ptx : PendingTransaction)
        (db : DataBase),
      env.userPhone ptx.recipient = some rp →
      env.hasGas (env.walletAddr uid) = false →
      executeSendTransaction env uid ph ptx db =
        ([.replied .insufficientGas], db)) ∧
    (∀ (env : Env) (uid ph rp : Str) (ptx : PendingTransaction)
        (db : DataBase),
      env.userPhone ptx.recipient = some rp →
      env.hasGas (env.walletAddr uid) = true →
      Event.transferInvoked (env.walletAddr uid)
          (env.walletAddr ptx.recipient) ptx.amount
        ∈ (executeSendTransaction env uid ph ptx db).1) := by
  refine ⟨?_, ?_, ?_⟩
  · intro env st now uid ph amt rcpt rp hnp hpin hlt
    exact handleSend_of_insufficient hnp hpin hlt
  · intro env uid ph rp ptx db hrp hgas
    exact execSend_of_no_gas hrp hgas
  · intro env uid ph rp ptx db hrp hgas
    cases htr : env.transfer (env.walletAddr uid)
        (env.walletAddr ptx.recipient) ptx.amount with
    | none => rw [execSend_of_transfer_fail hrp hgas htr]; simp
    | some hx => rw [execSend_of_transfer_ok hrp hgas htr]; simp

/-- C4 amended witness: staging rejects the low-balance send; a gasless
wallet is rejected at execution; with gas present the transfer is invoked
even though the balance is below the amount. -/
theorem balance_checked_at_staging_not_at_execution_witness :
    (handleSend lowBalanceEnv emptyStore 0 ['u'] ['p'] ['1','0'] ['+','1'] =
      ([.replied (.insufficientBalance ['5'] ['1','0'])], emptyStore)) ∧
    (executeSendTransaction noGasEnv ['u'] ['p'] demoPendingTx emptyDb =
      ([.replied .insufficientGas], emptyDb)) ∧
    Event.transferInvoked ['W','u'] ['W','r'] ['1','0']
      ∈ (executeSendTransaction lowBalanceEnv ['u'] ['p'] demoPendingTx
          emptyDb).1 :=
  ⟨balance_checked_at_staging_not_at_execution.1 lowBalanceEnv emptyStore 0
      ['u'] ['p'] ['1','0'] ['+','1'] ['+','1'] (by decide) (by decide)
      (by decide),
   balance_checked_at_staging_not_at_execution.2.1 noGasEnv ['u'] ['p']
      ['+','1'] demoPendingTx emptyDb (by decide) (by decide),
   balance_checked_at_staging_not_at_execution.2.2 lowBalanceEnv ['u'] ['p']
      ['+','1'] demoPendingTx emptyDb (by decide) (by decide)⟩

/-- C5: when the transfer of a confirmed send succeeds with a hash,
exactly two durable rows are appended to the transaction table — a `send`
row for the sender and a `receive` row for the recipient — both carrying
that hash and both marked confirmed. -/
theorem success_persists_two_confirmed_rows :
    ∀ (env : Env) (uid ph rp hx : Str) (ptx : PendingTransaction)
      (db : DataBase),
      env.userPhone ptx.recipient = some rp →
      env.hasGas (env.walletAddr uid) = true →
      env.transfer (env.walletAddr uid) (env.walletAddr ptx.recipient)
        ptx.amount = some hx →
      (∀ r ∈ db.rows, r.id < db.nextRowId) →
      (executeSendTransaction env uid ph ptx db).2.rows =
        db.rows ++
          [{ id := db.nextRowId, userId := uid, txHash := some hx,
             kind := .send, token := ['P','Y','U','S','D'],
             amount := ptx.amount,
             recipient := some (env.walletAddr ptx.recipient),
             sender := some (env.walletAddr uid), status := .confirmed },
           { id := db.nextRowId + 1, userId := ptx.recipient,
             txHash := some hx, kind := .receive,
             token := ['P','Y','U','S','D'], amount := ptx.amount,
             recipient := some (env.walletAddr ptx.recipient),
             sender := some (env.walletAddr uid), status := .confirmed }] := by
  intro env uid ph rp hx ptx db hrp hgas htr hfresh
  have hne : ∀ r ∈ db.rows, r.id ≠ db.nextRowId :=
    fun r hr => Nat.ne_of_lt (hfresh r hr)
  have hne2 : ∀ r ∈ db.rows, r.id ≠ db.nextRowId + 1 :=
    fun r hr => Nat.ne_of_lt (Nat.lt_trans (hfresh r hr) (Nat.lt_succ_self _))
  have hfr1 : ∀ (g : TxRow → TxRow),
      db.rows.map (fun r => if r.id = db.nextRowId then g r else r)
        = db.rows :=
    fun g => map_id_of_mem fun r hr => if_neg (hne r hr)
  have hfr2 : ∀ (g : TxRow → TxRow),
      db.rows.map (fun r => if r.id = db.nextRowId + 1 then g r else r)
        = db.rows :=
    fun g => map_id_of_mem fun r hr => if_neg (hne2 r hr)
  simp only [executeSendTransaction, hrp, hgas, Bool.not_true,
    Bool.false_eq_true, if_false, htr, reduceIte]
  simp [createTransaction, updateTransactionHash, updateTransactionStatus,
    hfr1, hfr2]

/-- C5 witness: executing the staged demonstration send against the empty
table appends exactly the two confirmed rows sharing the hash `hx`. -/
theorem success_persists_two_confirmed_rows_witness :
    (executeSendTransaction demoEnv ['u'] ['p'] demoPendingTx emptyDb).2.rows =
      emptyDb.rows ++
        [{ id := 0, userId := ['u'], txHash := some ['h','x'], kind := .send,
           token := ['P','Y','U','S','D'], amount := ['1','0'],
           recipient := some ['W','r'], sender := some ['W','u'],
           status := .confirmed },
         { id := 1, userId := ['r'], txHash := some ['h','x'],
           kind := .receive, token := ['P','Y','U','S','D'],
           amount := ['1','0'], recipient := some ['W','r'],
           sender := some ['W','u'], status := .confirmed }] :=
  success_persists_two_confirmed_rows demoEnv ['u'] ['p'] ['+','1']
    ['h','x'] demoPendingTx emptyDb (by decide) (by decide) (by decide)
    (by intro r hr; cases hr)

/-! ## Claims about PIN-gated confirmation -/

theorem handleConfirmWithPin_of_bad_pin {env : Env} {st : StoreState}
    {db : DataBase} {now : Nat} {uid ph pin phash : Str}
    (hph : env.pinHashOf uid = some phash)
    (hbad : verifyPin env.kdf pin phash = false) :
    handleConfirmWithPin env st db now uid ph pin =
      ([.pinVerified false, .replied .authFailure],
       (cancelPendingTransaction st uid).2, db) := by
  simp only [handleConfirmWithPin, hph, hbad, Bool.not_false, if_true,
    reduceIte]

/-- C6: on a well-formed but incorrect PIN the user gets the
authentication-failure reply, the pending action is removed from the
store, no transfer is invoked and the durable table is untouched; and a
re-issued send command afterwards stages a fresh pending action — a new
record with a new id (never the old id), no attached PIN and the new
creation time — rather than reusing the old one. -/
theorem wrong_pin_cancels_and_restart_is_fresh :
    ∀ (env : Env) (st : StoreState) (db : DataBase) (now : Nat)
      (uid ph pin phash : Str),
      env.pinHashOf uid = some phash →
      verifyPin env.kdf pin phash = false →
      (handleConfirmWithPin env st db now uid ph pin =
        ([.pinVerified false, .replied .authFailure],
         (cancelPendingTransaction st uid).2, db)) ∧
      (∀ a b amt, Event.transferInvoked a b amt ∉
        (handleConfirmWithPin env st db now uid ph pin).1) ∧
      mapFind (cancelPendingTransaction st uid).2.userPendingTx uid = none ∧
      (∀ (now2 : Nat) (amt rcpt rp : Str) (oldId : Nat),
        mapFind st.userPendingTx uid = some oldId →
        oldId < st.nextId →
        env.normalizePhone rcpt = some rp →
        ¬ env.num (env.pyusdBalance (env.walletAddr uid)) < env.num amt →
        (handleSend env (cancelPendingTransaction st uid).2 now2 uid ph
            amt rcpt =
          ([.replied (.confirmationRequest amt rp
              (env.pinHashOf uid).isSome)],
           (createPendingTransaction (cancelPendingTransaction st uid).2 now2
          { userId := uid, phoneNumber := ph, kind := .send, amount := amt,
            recipient := env.userIdOf rp, recipientPhone := rp }).2)) ∧
        (createPendingTransaction (cancelPendingTransaction st uid).2 now2
          { userId := uid, phoneNumber := ph, kind := .send, amount := amt,
            recipient := env.userIdOf rp, recipientPhone := rp }).1.id = st.nextId ∧
        (createPendingTransaction (cancelPendingTransaction st uid).2 now2
          { userId := uid, phoneNumber := ph, kind := .send, amount := amt,
            recipient := env.userIdOf rp, recipientPhone := rp }).1.id ≠ oldId ∧
        (createPendingTransaction (cancelPendingTransaction st uid).2 now2
          { userId := uid, phoneNumber := ph, kind := .send, amount := amt,
            recipient := env.userIdOf rp, recipientPhone := rp }).1.pin = none ∧
        (createPendingTransaction (cancelPendingTransaction st uid).2 now2
          { userId := uid, phoneNumber := ph, kind := .send, amount := amt,
            recipient := env.userIdOf rp, recipientPhone := rp }).1.createdAt = now2 ∧
        mapFind (createPendingTransaction (cancelPendingTransaction st uid).2 now2
          { userId := uid, phoneNumber := ph, kind := .send, amount := amt,
            recipient := env.userIdOf rp, recipientPhone := rp }).2.userPendingTx uid = some (createPendingTransaction (cancelPendingTransaction st uid).2 now2
          { userId := uid, phoneNumber := ph, kind := .send, amount := amt,
            recipient := env.userIdOf rp, recipientPhone := rp }).1.id) := by
  intro env st db now uid ph pin phash hph hbad
  have hmain := @handleConfirmWithPin_of_bad_pin env st db now uid ph pin
    phash hph hbad
  refine ⟨hmain, ?_, cancel_find_none st uid, ?_⟩
  · intro a b amt
    rw [hmain]
    simp
  · intro now2 amt rcpt rp oldId hold holt hnp hge
    have hpin : (env.pinHashOf uid).isNone = false := by rw [hph]; rfl
    have hid : (createPendingTransaction (cancelPendingTransaction st uid).2 now2
          { userId := uid, phoneNumber := ph, kind := .send, amount := amt,
            recipient := env.userIdOf rp, recipientPhone := rp }).1.id = st.nextId := by
      rw [create_fst]
      rw [cancel_nextId, cancel_nextId]
    refine ⟨handleSend_of_staged hnp hpin hge, hid, ?_, ?_, ?_, ?_⟩
    · rw [hid]
      exact (Nat.ne_of_lt holt).symm
    · rw [create_fst]
    · rw [create_fst]
    · rw [create_snd]
      rw [mapFind_insert_self]
      rw [hid, cancel_nextId, cancel_nextId]

/-- C6 witness: the wrong PIN `9999` against the staged demonstration
send yields the failure reply and the cancelled store, and the re-issued
send creates a pending action with a fresh id. -/
theorem wrong_pin_cancels_and_restart_is_fresh_witness :
    (handleConfirmWithPin demoEnv stagedSendStore emptyDb 1000 ['u'] ['p']
        ['9','9','9','9'] =
      ([.pinVerified false, .replied .authFailure],
       (cancelPendingTransaction stagedSendStore ['u']).2, emptyDb)) ∧
    (createPendingTransaction
        (cancelPendingTransaction stagedSendStore ['u']).2 2000
        { userId := ['u'], phoneNumber := ['p'], kind := .send,
          amount := ['1','0'], recipient := demoEnv.userIdOf ['+','1'],
          recipientPhone := ['+','1'] }).1.id ≠ 0 :=
  have h := wrong_pin_cancels_and_restart_is_fresh demoEnv stagedSendStore
    emptyDb 1000 ['u'] ['p'] ['9','9','9','9'] demoPinHash (by decide)
    (by decide)
  ⟨h.1, (h.2.2.2 2000 ['1','0'] ['+','1'] ['+','1'] 0 (by decide)
      (by decide) (by decide) (by decide)).2.2.1⟩

/-- C1 (exhibiting the code bug): with a PIN set and a send staged, the
single inbound message `yes` is classified as a confirm intent and
`handleConfirm` invokes the wallet transfer with no PIN verification
event at all — a path from staged to executing that never passes the
PIN guard, although the confirmation prompt demands the PIN. -/
theorem confirm_word_executes_send_without_pin_verification :
    Event.transferInvoked ['W','u'] ['W','r'] ['1','0']
        ∈ (handleInbound demoEnv stagedSendStore emptyDb 1000 ['u'] ['p']
            ['y','e','s']).1 ∧
    Event.pinVerified true ∉ (handleInbound demoEnv stagedSendStore emptyDb
        1000 ['u'] ['p'] ['y','e','s']).1 ∧
    Event.pinVerified false ∉ (handleInbound demoEnv stagedSendStore emptyDb
        1000 ['u'] ['p'] ['y','e','s']).1 := by
  decide

end Giggle
